import Mathlib

set_option maxHeartbeats 1000000
set_option maxRecDepth 8000

/-! Shallow embedding of the alire testsuite driver `testsuite/drivers/alr.py`:
the manifest/lockfile mutation engine (manual pin / unpin / with-dependency
editing), the `alr` CLI invocation wrapper and the index registrar.

Text is modelled as lists of characters (`Txt`, mirroring Python `str`); file
contents are whole texts.  The external `alr` subprocess is an oracle
parameter mapping an argument vector to an exit status and raw output; every
invocation is recorded in the state.  Modification times are naturals
supplied by the caller (`now`), and `os.utime(lockfile, (0, 0))` sets the
lockfile mtime to 0.  The e3 shell-quoting helper `quote_arg` is an external
collaborator and is passed in as an opaque function `q`. -/

/-- Text: file contents, command arguments and message payloads, as
character lists (Python `str`). -/
abbrev Txt : Type := List Char

/-- Python `file.readlines()`: split a text into lines, each keeping its
trailing newline; a final unterminated chunk forms a last line.  The first
argument is the remaining input, the second the reversed current chunk. -/
def readlinesAux : Txt → Txt → List Txt
  | [], acc => if acc = [] then [] else [acc.reverse]
  | c :: cs, acc =>
    if c = '\n' then (acc.reverse ++ ['\n']) :: readlinesAux cs []
    else readlinesAux cs (c :: acc)

/-- Python `file.readlines()` on a whole text. -/
def readlines (s : Txt) : List Txt := readlinesAux s []

/-- Python `file.writelines(lines)`: concatenation of the lines. -/
def joinLines : List Txt → Txt
  | [] => []
  | l :: ls => l ++ joinLines ls

/-- Python `s.find(c)` for a single character: index of the first
occurrence, `-1` if absent. -/
def pyFind (c : Char) : Txt → Int
  | [] => -1
  | x :: xs =>
    if x = c then 0
    else
      let r := pyFind c xs
      if r < 0 then -1 else r + 1

/-- The fixed version-operator characters of `alr_with`
(`separators = "=^~<>*"`). -/
def separators : List Char := ['=', '^', '~', '<', '>', '*']

/-- `pos = max([dep.find(separator) for separator in separators])` in
`alr_with`: the largest among the first occurrences of each separator
character (Python's `max` over the six values, each at least `-1`, equals
this fold). -/
def sepPos (dep : Txt) : Int :=
  (separators.map (fun c => pyFind c dep)).foldl max (-1)

/-- Spec-side definition, following the specification's words: the
right-most occurrence in the string of any character from `seps`
(`-1` if none occurs).  To be compared with `sepPos`. -/
def rfindAny (seps : List Char) : Txt → Int
  | [] => -1
  | x :: xs =>
    let r := rfindAny seps xs
    if 0 ≤ r then r + 1 else if x ∈ seps then 0 else -1

/-- Clamp a Python slice index to an actual list position
(negative indexes count from the end, as in Python). -/
def pyIdx (n : Nat) (i : Int) : Nat :=
  if i < 0 then (i + n).toNat else min i.toNat n

/-- Python `s[:i]`. -/
def pyTake (s : Txt) (i : Int) : Txt := s.take (pyIdx s.length i)

/-- Python `s[i:]`. -/
def pyDrop (s : Txt) (i : Int) : Txt := s.drop (pyIdx s.length i)

/-- `out.replace('\r\n', '\n')`: CRLF to LF normalization of `run_alr`. -/
def crlf_to_lf : Txt → Txt
  | [] => []
  | '\r' :: '\n' :: rest => '\n' :: crlf_to_lf rest
  | c :: rest => c :: crlf_to_lf rest

/-- Python `' '.join(...)`. -/
def joinSp : List Txt → Txt
  | [] => []
  | [x] => x
  | x :: y :: xs => x ++ ' ' :: joinSp (y :: xs)

/-- Decimal rendering of an integer, for interpolated messages. -/
def intToTxt (i : Int) : Txt := (toString i).data

/-- The header line `f"[[{array}]]\n"` looked for by
`delete_array_entry_from_manifest`. -/
def headerOf (array : Txt) : Txt := ("[[").data ++ array ++ ("]]\n").data

/-- Declarative description of the manifest shape targeted by a removal:
some line equals the `[[array]]` header and the line immediately after it
starts with `key =` (the scan in the source begins at index 1, so the
header/entry pair is exactly an adjacent pair of lines). -/
def HasPair (array key : Txt) (lines : List Txt) : Prop :=
  ∃ pr ∈ lines.zip lines.tail,
    (key ++ (" =").data) <+: pr.2 ∧ pr.1 = headerOf array

/-- The scan-and-pop of `delete_array_entry_from_manifest`: walk the lines;
at the first adjacent pair (header, entry-starting-with-`key =`) drop both
lines and return the remainder; `none` when no pair matches ("found"
stays false in the source). -/
def deleteEntryLines (array key : Txt) : List Txt → Option (List Txt)
  | x :: y :: rest =>
    if (key ++ (" =").data) <+: y ∧ x = headerOf array then some rest
    else
      match deleteEntryLines array key (y :: rest) with
      | some res => some (x :: res)
      | none => none
  | _ => none

/-- Errors raised by the driver.  `calledProcessError` is the
`InvocationFailure` of the specification, `valueError` its
`ValidationFailure`, `runtimeError` covers both `MutationNotFound` and the
conflicting-option / configuration errors (all `RuntimeError` in the
source). -/
inductive AlrError where
  | calledProcessError : Txt → AlrError
  | valueError : Txt → AlrError
  | runtimeError : Txt → AlrError
deriving DecidableEq

/-- `ProcessResult(status, out)` returned by `run_alr`. -/
structure ProcessResult where
  status : Int
  out : Txt
deriving DecidableEq

/-- The observable state of one test sandbox: the manifest file's content
and mtime, the lockfile's mtime, everything printed by the driver, the
argument vectors of all spawned subprocesses, and the files written /
trees copied by the index registrar.  The lockfile's content is opaque to
the driver (only its timestamp is manipulated), so it is not modelled. -/
structure TState where
  manifest : Txt
  manifestMtime : Nat
  lockMtime : Nat
  printed : List Txt
  calls : List (List Txt)
  writes : List (Txt × Txt)
  copies : List (Txt × Txt)
deriving DecidableEq

/-- Result of a driver operation: Python exceptions abort with the state
as already mutated at the raise point, so both outcomes carry a state. -/
inductive OpResult (α : Type) where
  | ok : α → TState → OpResult α
  | err : AlrError → TState → OpResult α
deriving DecidableEq

/-- The external `alr` tool, as a black box: argument vector to
(exit status, raw output).  Its own effects on the sandbox files are not
modelled (the driver treats it as an external collaborator). -/
abbrev Oracle : Type := List Txt → Int × Txt

/-- State carried by an operation result, at the ok or at the raise point. -/
def opState {α : Type} : OpResult α → TState
  | .ok _ s => s
  | .err _ s => s

/-- The error carried by a result, if any. -/
def errPayload {α : Type} : OpResult α → Option AlrError
  | .ok _ _ => none
  | .err e _ => some e

/-- Did the operation succeed? -/
def isOk {α : Type} : OpResult α → Bool
  | .ok _ _ => true
  | .err _ _ => false

/-- The argument vector built by `run_alr`: `alr -n`, then `-d` when
debugging (default), `-f` when forcing, `-q` when quiet (default), then
the caller's arguments. -/
def alr_argv (debug force quiet : Bool) (args : List Txt) : List Txt :=
  ((("alr").data :: ("-n").data :: [])
      ++ (if debug then [("-d").data] else []))
    ++ (if force then [("-f").data] else [])
    ++ (if quiet then [("-q").data] else [])
    ++ args

/-- `run_alr`: spawn `alr` with the normalized argument convention.  On a
non-zero exit status with `complain_on_error` (the default), print the
command line (shell-quoted through `q`), the status and the raw output,
then raise `CalledProcessError` whose payload is only the fixed message.
Otherwise return the status together with the CRLF-normalized output. -/
def run_alr (oracle : Oracle) (q : Txt → Txt)
    (complain_on_error debug force quiet : Bool) (args : List Txt)
    (st : TState) : OpResult ProcessResult :=
  let argv := alr_argv debug force quiet args
  let r := oracle argv
  let st1 : TState := { st with calls := st.calls ++ [argv] }
  if r.fst ≠ 0 ∧ complain_on_error then
    let st2 : TState := { st1 with printed := st1.printed ++
      [("The following command:").data,
       ("  ").data ++ joinSp (argv.map q),
       ("Exitted with status code ").data ++ intToTxt r.fst,
       ("Output:").data,
       r.snd] }
    .err (.calledProcessError (("alr returned non-zero status code").data)) st2
  else
    .ok (ProcessResult.mk r.fst (crlf_to_lf r.snd)) st1

/-- `alr_touch_manifest`: make the lockfile older than the manifest by
resetting its mtime to the epoch. -/
def alr_touch_manifest (st : TState) : TState := { st with lockMtime := 0 }

/-- `delete_array_entry_from_manifest(array, crate, fail_if_missing,
update)`: scan the manifest for the `[[array]]` header immediately followed
by a `crate = ...` line and pop both.  When found, rewrite the manifest and
(if `update`) run `alr pin`; when absent and `fail_if_missing`, raise a bare
`RuntimeError` (the source separates `raise RuntimeError` from its
parenthesized message on the next line, so no message is attached).  The
lockfile epoch reset at the end of the source function is reached on the
found path (after the `alr pin` call) and on the silent no-op path, but not
when an exception aborts first. -/
def delete_array_entry_from_manifest (oracle : Oracle) (q : Txt → Txt)
    (now : Nat) (array crate : Txt) (fail_if_missing update : Bool)
    (st : TState) : OpResult Unit :=
  match deleteEntryLines array crate (readlines st.manifest) with
  | some newLines =>
    let st1 : TState :=
      { st with manifest := joinLines newLines, manifestMtime := now }
    if update then
      match run_alr oracle q true true false true [("pin").data] st1 with
      | .ok _ st2 => .ok () { st2 with lockMtime := 0 }
      | .err e st2 => .err e st2
    else
      .ok () { st1 with lockMtime := 0 }
  | none =>
    if fail_if_missing then
      .err (.runtimeError []) st
    else
      .ok () { st with lockMtime := 0 }

/-- `alr_unpin(crate, manual, fail_if_missing, update)`: manual path
delegates to `delete_array_entry_from_manifest` on the pins array; the CLI
path requires `update` and issues `alr pin --unpin crate`. -/
def alr_unpin (oracle : Oracle) (q : Txt → Txt) (now : Nat) (crate : Txt)
    (manual fail_if_missing update : Bool) (st : TState) : OpResult Unit :=
  if manual then
    delete_array_entry_from_manifest oracle q now (("pins").data) crate
      fail_if_missing update st
  else if !update then
    .err (.runtimeError (("Update cannot be disabled when using the command-line interface").data)) st
  else
    match run_alr oracle q true true false true
        [("pin").data, ("--unpin").data, crate] st with
    | .ok _ st1 => .ok () st1
    | .err e st1 => .err e st1

/-- The inline-table pin entry built by the manual branch of `alr_pin`:
the if/elif chain over `version`, `path`, `url`+`commit`, `url`+`branch`,
`url`; `none` corresponds to the final `raise ValueError`. -/
def pin_line (crate version path url commit branch : Txt) : Option Txt :=
  if version ≠ [] then
    some (crate ++ (" = \x7b version = \"").data ++ version ++ ("\" \x7d").data)
  else if path ≠ [] then
    some (crate ++ (" = \x7b path = \x27").data ++ path ++ ("\x27 \x7d").data)
  else if url ≠ [] ∧ commit ≠ [] then
    some (crate ++ (" = \x7b url = \x27").data ++ url
      ++ ("\x27, commit = \x27").data ++ commit ++ ("\x27 \x7d").data)
  else if url ≠ [] ∧ branch ≠ [] then
    some (crate ++ (" = \x7b url = \x27").data ++ url
      ++ ("\x27, branch = \x27").data ++ branch ++ ("\x27 \x7d").data)
  else if url ≠ [] then
    some (crate ++ (" = \x7b url = \x27").data ++ url ++ ("\x27 \x7d").data)
  else none

/-- `alr_pin(crate, version, path, url, commit, branch, manual, update)`:
reject commit together with branch; the manual path first unpins just in
case (ignoring absence), appends `\n[[pins]]\n` and the pin entry to the
manifest, resets the lockfile mtime, and optionally runs `alr pin`; the CLI
path requires `update` and translates the spec into `alr pin` arguments. -/
def alr_pin (oracle : Oracle) (q : Txt → Txt) (now : Nat)
    (crate version path url commit branch : Txt) (manual update : Bool)
    (st : TState) : OpResult Unit :=
  if commit ≠ [] ∧ branch ≠ [] then
    .err (.runtimeError (("Do not specify both commit and branch").data)) st
  else if manual then
    match alr_unpin oracle q now crate true false true st with
    | .err e st1 => .err e st1
    | .ok _ st1 =>
      match pin_line crate version path url commit branch with
      | none =>
        .err (.valueError (("Specify either version, path or url").data)) st1
      | some line =>
        let st2 : TState := { st1 with
          manifest := st1.manifest ++ ("\n[[pins]]\n").data ++ line ++ ['\n'],
          manifestMtime := now }
        let st3 : TState := { st2 with lockMtime := 0 }
        if update then
          match run_alr oracle q true true false true [("pin").data] st3 with
          | .ok _ st4 => .ok () st4
          | .err e st4 => .err e st4
        else
          .ok () st3
  else if !update then
    .err (.runtimeError (("Update cannot be disabled when using the command-line interface").data)) st
  else
    let args : List Txt :=
      if version ≠ [] then [crate ++ '=' :: version]
      else
        [crate]
          ++ (if path ≠ [] then [("--use").data, path]
              else if url ≠ [] then [("--use").data, url] else [])
          ++ (if commit ≠ [] then [("--commit").data, commit]
              else if branch ≠ [] then [("--branch").data, branch] else [])
    match run_alr oracle q true true false true (("pin").data :: args) st with
    | .ok _ st1 => .ok () st1
    | .err e st1 => .err e st1

/-- The `dep += "*"` fixing step of `alr_with`: when manual and no
version-operator character occurs in the expression, append the wildcard. -/
def fix_dep (manual : Bool) (dep : Txt) : Txt :=
  if manual && !(separators.any fun c => decide (c ∈ dep)) then dep ++ ['*']
  else dep

/-- `alr_with(dep, path, url, commit, branch, delete, manual, update,
force)`: add or remove a dependency.  Conflicting commit/branch and
path/url are rejected first, then a manual call without an explicit
dependency.  The wildcard fix and the separator position are computed, and
the manual branch either delegates deletion to
`delete_array_entry_from_manifest` (passing the fixed expression) or
appends a `[[depends-on]]` entry split at the separator position, pins as
a secondary effect when a source override is supplied, resets the lockfile
mtime and optionally runs `alr with`.  The CLI branch translates to `alr
with` arguments. -/
def alr_with (oracle : Oracle) (q : Txt → Txt) (now : Nat)
    (dep path url commit branch : Txt)
    (delete manual update force : Bool) (st : TState) : OpResult Unit :=
  if commit ≠ [] ∧ branch ≠ [] then
    .err (.runtimeError (("Do not specify both commit and branch").data)) st
  else if path ≠ [] ∧ url ≠ [] then
    .err (.runtimeError (("Do not specify both path and url").data)) st
  else if manual ∧ dep = [] then
    .err (.runtimeError (("Cannot manually add without explicit dependency").data)) st
  else
    let dep := fix_dep manual dep
    let pos := sepPos dep
    if manual then
      if delete then
        delete_array_entry_from_manifest oracle q now (("depends-on").data)
          dep true update st
      else
        let st1 : TState := { st with
          manifest := st.manifest ++ ("\n[[depends-on]]\n").data
            ++ pyTake dep pos ++ (" = \"").data ++ pyDrop dep pos
            ++ ("\"\n").data,
          manifestMtime := now }
        let afterPin : OpResult Unit :=
          if path ≠ [] ∨ url ≠ [] then
            alr_pin oracle q now (pyTake dep pos) [] path url commit branch
              manual false st1
          else .ok () st1
        match afterPin with
        | .err e st2 => .err e st2
        | .ok _ st2 =>
          let st3 : TState := { st2 with lockMtime := 0 }
          if update then
            match run_alr oracle q true true force true [("with").data] st3 with
            | .ok _ st4 => .ok () st4
            | .err e st4 => .err e st4
          else
            .ok () st3
    else
      if delete then
        match run_alr oracle q true true false true
            [("with").data, ("--del").data, dep] st with
        | .ok _ st1 => .ok () st1
        | .err e st1 => .err e st1
      else
        let args : List Txt :=
          [("with").data]
            ++ (if dep ≠ [] then [dep] else [])
            ++ (if path ≠ [] then [("--use").data, path]
                else if url ≠ [] then [("--use").data, url] else [])
            ++ (if commit ≠ [] then [("--commit").data, commit]
                else if branch ≠ [] then [("--branch").data, branch] else [])
        match run_alr oracle q true true force true args st with
        | .ok _ st1 => .ok () st1
        | .err e st1 => .err e st1

/-- A Python value stored in an index description dictionary. -/
inductive PyVal where
  | pstr : Txt → PyVal
  | pbool : Bool → PyVal
  | pint : Int → PyVal
deriving DecidableEq

/-- An index description: a dictionary from keys to values, as an
association list with unique keys (insertion order preserved, as Python
dicts do). -/
abbrev Desc : Type := List (Txt × PyVal)

/-- Python `desc.pop(key, default)` restricted to its effect: the value at
the key (if any) and the dictionary without it. -/
def descPop (d : Desc) (k : Txt) : Option PyVal × Desc :=
  match d with
  | [] => (none, [])
  | (k', v) :: rest =>
    if k' = k then (some v, rest)
    else
      let r := descPop rest k
      (r.fst, (k', v) :: r.snd)

/-- Lexicographic comparison of keys, for `sorted(desc)[0]`. -/
def lexLt : Txt → Txt → Bool
  | [], [] => false
  | [], _ :: _ => true
  | _ :: _, [] => false
  | a :: as, b :: bs => if a < b then true else if b < a then false else lexLt as bs

/-- `sorted(keys)[0]`: the smallest key. -/
def minKey (ks : List Txt) : Txt :=
  ks.foldl (fun a b => if lexLt b a then b else a) (ks.headD [])

/-- `'invalid index description for {name}: {reason}'`. -/
def invalidDescMsg (name reason : Txt) : Txt :=
  ("invalid index description for ").data ++ name ++ (": ").data ++ reason

/-- The validation and field-extraction prefix of one iteration of
`prepare_indexes`: pop `dir` (default: the index name), `in_fixtures`
(default true), `copy_crates_src` (default false) and `priority`
(default 1), checking each field's type, then reject any leftover
(unknown) key, naming the smallest one.  All of this happens in the source
before any file of the index is written. -/
def parseDesc (name : Txt) (desc : Desc) :
    Except Txt (Txt × Bool × Bool × Int) :=
  let p1 := descPop desc (("dir").data)
  match p1.fst.getD (.pstr name) with
  | .pstr files_dir =>
    let p2 := descPop p1.snd (("in_fixtures").data)
    match p2.fst.getD (.pbool true) with
    | .pbool in_fixtures =>
      let p3 := descPop p2.snd (("copy_crates_src").data)
      match p3.fst.getD (.pbool false) with
      | .pbool copy_crates_src =>
        let p4 := descPop p3.snd (("priority").data)
        match p4.fst.getD (.pint 1) with
        | .pint priority =>
          if p4.snd = [] then
            .ok (files_dir, in_fixtures, copy_crates_src, priority)
          else
            .error (invalidDescMsg name
              (("unknown key \x27").data ++ minKey (p4.snd.map Prod.fst)
                ++ ("\x27").data))
        | _ => .error (invalidDescMsg name (("\"priority\" must be a an integer").data))
      | _ => .error (invalidDescMsg name (("\"copy_crates_src\" must be a a boolean").data))
    | _ => .error (invalidDescMsg name (("\"in_fixtures\" must be a a boolean").data))
  | _ => .error (invalidDescMsg name (("\"dir\" must be a a string").data))

/-- `os.path.join(a, b)` on POSIX: an absolute second component wins. -/
def pyJoin (a b : Txt) : Txt :=
  match b with
  | '/' :: _ => b
  | _ => a ++ '/' :: b

/-- `fixtures_path(x)`: a path under the testsuite fixtures directory,
with the testsuite root passed explicitly. -/
def fixtures_path (root x : Txt) : Txt :=
  pyJoin (pyJoin root (("fixtures").data)) x

/-- The `index.toml` descriptor written for one index (the triple-quoted
template of the source, verbatim, including its leading newline and
trailing indentation). -/
def index_toml (name : Txt) (priority : Int) (url : Txt) : Txt :=
  ("\nname = \x27").data ++ name ++ ("\x27\npriority = ").data
    ++ intToTxt priority ++ ("\nurl = \x27").data ++ url
    ++ ("\x27\n            ").data

/-- `prepare_indexes(config_dir, working_dir, index_descriptions)`: for
each index, validate the description (`parseDesc`), resolve the files
directory (under the fixtures root when `in_fixtures`), optionally copy
the crates sources next to (outside) the index, and write
`indexes/<name>/index.toml` into the configuration directory.  Directory
creation (`mkdir`) has no observable content and is not tracked. -/
def prepare_indexes (root config_dir working_dir : Txt) :
    List (Txt × Desc) → TState → OpResult Unit
  | [], st => .ok () st
  | (name, desc) :: rest, st =>
    match parseDesc name desc with
    | .error m => .err (.valueError m) st
    | .ok (files_dir, in_fixtures, copy_crates_src, priority) =>
      let files_dir2 := if in_fixtures then fixtures_path root files_dir else files_dir
      let st1 : TState :=
        if copy_crates_src then
          { st with copies := st.copies
              ++ [(fixtures_path root (("crates").data),
                   pyJoin working_dir (("crates").data))] }
        else st
      let st2 : TState := { st1 with writes := st1.writes
          ++ [(pyJoin (pyJoin (pyJoin config_dir (("indexes").data)) name)
                 (("index.toml").data),
               index_toml name priority (pyJoin working_dir files_dir2))] }
      prepare_indexes root config_dir working_dir rest st2

/-! ### Line-splitting lemmas -/

lemma readlinesAux_nil (acc : Txt) :
    readlinesAux [] acc = if acc = [] then [] else [acc.reverse] := rfl

lemma readlinesAux_cons (c : Char) (cs acc : Txt) :
    readlinesAux (c :: cs) acc =
      if c = '\n' then (acc.reverse ++ ['\n']) :: readlinesAux cs []
      else readlinesAux cs (c :: acc) := rfl

lemma readlinesAux_newline_split : ∀ (A : Txt), '\n' ∉ A → ∀ (B acc : Txt),
    readlinesAux (A ++ '\n' :: B) acc
      = (acc.reverse ++ A ++ ['\n']) :: readlinesAux B [] := by
  intro A
  induction A with
  | nil => intro _ B acc; simp [readlinesAux_cons]
  | cons c A ih =>
    intro h B acc
    have hc : c ≠ '\n' := fun hh => h (by simp [hh])
    have hA : '\n' ∉ A := fun hm => h (List.mem_cons_of_mem _ hm)
    rw [List.cons_append, readlinesAux_cons, if_neg hc, ih hA B (c :: acc)]
    simp

lemma readlinesAux_append : ∀ (A : Txt), A.getLast? = some '\n' → ∀ (B acc : Txt),
    readlinesAux (A ++ B) acc = readlinesAux A acc ++ readlinesAux B [] := by
  intro A
  induction A with
  | nil => intro h; simp at h
  | cons c A ih =>
    intro h B acc
    rcases A with _ | ⟨d, A'⟩
    · rw [List.getLast?_singleton] at h
      have hc : c = '\n' := by simpa using h
      subst hc
      simp [readlinesAux_cons, readlinesAux_nil]
    · have h' : (d :: A').getLast? = some '\n' := by
        rwa [List.getLast?_cons_cons] at h
      by_cases hc : c = '\n'
      · subst hc
        rw [List.cons_append, readlinesAux_cons, if_pos rfl,
            readlinesAux_cons, if_pos rfl, ih h' B []]
        simp
      · rw [List.cons_append, readlinesAux_cons, if_neg hc,
            readlinesAux_cons, if_neg hc]
        exact ih h' B (c :: acc)
lemma readlines_append (A B : Txt) (h : A = [] ∨ A.getLast? = some '\n') :
    readlines (A ++ B) = readlines A ++ readlines B := by
  rcases h with rfl | h
  · simp [readlines, readlinesAux]
  · unfold readlines
    exact readlinesAux_append A h B []

lemma joinLines_readlinesAux : ∀ (cs acc : Txt),
    joinLines (readlinesAux cs acc) = acc.reverse ++ cs := by
  intro cs
  induction cs with
  | nil =>
    intro acc
    by_cases h : acc = [] <;> simp [readlinesAux, joinLines, h]
  | cons c cs ih =>
    intro acc
    by_cases hc : c = '\n'
    · subst hc; simp [readlinesAux, joinLines, ih]
    · simp [readlinesAux, hc, ih]

lemma joinLines_readlines (s : Txt) : joinLines (readlines s) = s := by
  simpa using joinLines_readlinesAux s []

lemma joinLines_append (A B : List Txt) :
    joinLines (A ++ B) = joinLines A ++ joinLines B := by
  induction A with
  | nil => simp [joinLines]
  | cons l A ih => simp [joinLines, ih]

/-! ### Lemmas about the separator-position computation -/

lemma foldl_max_init (L : List Int) : ∀ i : Int, i ≤ L.foldl max i := by
  induction L with
  | nil => intro i; simp
  | cons a L ih => intro i; exact le_trans (le_max_left i a) (ih (max i a))

lemma foldl_max_mem (L : List Int) : ∀ (i v : Int), v ∈ L → v ≤ L.foldl max i := by
  induction L with
  | nil => intro i v hv; simp at hv
  | cons a L ih =>
    intro i v hv
    rcases List.mem_cons.mp hv with rfl | hv
    · exact le_trans (le_max_right i v) (foldl_max_init L (max i v))
    · exact ih (max i a) v hv

lemma foldl_max_cases (L : List Int) :
    ∀ i : Int, L.foldl max i = i ∨ L.foldl max i ∈ L := by
  induction L with
  | nil => intro i; exact .inl rfl
  | cons a L ih =>
    intro i
    have hf : (a :: L).foldl max i = L.foldl max (max i a) := rfl
    rcases ih (max i a) with h | h
    · rcases le_total i a with hle | hle
      · right; rw [hf, h, max_eq_right hle]; exact List.mem_cons_self a L
      · left; rw [hf, h, max_eq_left hle]
    · right
      rw [hf]
      exact List.mem_cons_of_mem a h

lemma neg_one_le_pyFind (c : Char) : ∀ s : Txt, -1 ≤ pyFind c s := by
  intro s
  induction s with
  | nil => simp [pyFind]
  | cons x xs ih =>
    by_cases hx : x = c
    · simp [pyFind, hx]
    · simp only [pyFind, if_neg hx]
      split <;> omega

lemma pyFind_of_not_mem (c : Char) : ∀ s : Txt, c ∉ s → pyFind c s = -1 := by
  intro s
  induction s with
  | nil => intro _; rfl
  | cons x xs ih =>
    intro h
    have hx : x ≠ c := fun hh => h (by simp [hh])
    have h' : c ∉ xs := fun hm => h (List.mem_cons_of_mem _ hm)
    simp [pyFind, hx, ih h']

lemma pyFind_append_self (c : Char) : ∀ s : Txt, c ∉ s →
    pyFind c (s ++ [c]) = (s.length : Int) := by
  intro s
  induction s with
  | nil => intro _; simp [pyFind]
  | cons x xs ih =>
    intro h
    have hx : x ≠ c := fun hh => h (by simp [hh])
    have h' : c ∉ xs := fun hm => h (List.mem_cons_of_mem _ hm)
    rw [List.cons_append]
    simp only [pyFind, if_neg hx, ih h']
    rw [if_neg (by omega)]
    simp [List.length_cons]

lemma pyFind_get (c : Char) : ∀ (s : Txt) (k : Nat), pyFind c s = (k : Int) →
    ∃ h : k < s.length, s.get ⟨k, h⟩ = c := by
  intro s
  induction s with
  | nil =>
    intro k h
    simp [pyFind] at h
  | cons x xs ih =>
    intro k h
    by_cases hx : x = c
    · simp [pyFind, hx] at h
      have hk : k = 0 := by omega
      subst hk
      exact ⟨by simp, by simpa [List.get] using hx⟩
    · simp only [pyFind, if_neg hx] at h
      rcases lt_or_ge (pyFind c xs) 0 with hr | hr
      · rw [if_pos hr] at h; omega
      · rw [if_neg (not_lt.mpr hr)] at h
        obtain ⟨k', rfl⟩ : ∃ k', k = k' + 1 := ⟨k - 1, by omega⟩
        have h' : pyFind c xs = (k' : Int) := by push_cast at h ⊢; omega
        obtain ⟨hlt, hget⟩ := ih k' h'
        exact ⟨by simpa using Nat.succ_lt_succ hlt, by simpa [List.get] using hget⟩

lemma pyFind_unique (c : Char) : ∀ (s : Txt), s.count c ≤ 1 →
    ∀ (i : Nat) (h : i < s.length), s.get ⟨i, h⟩ = c → pyFind c s = (i : Int) := by
  intro s
  induction s with
  | nil => intro _ i h; simp at h
  | cons x xs ih =>
    intro hcount i h hget
    rcases Nat.eq_zero_or_pos i with rfl | hi
    · have hx : x = c := by simpa [List.get] using hget
      simp [pyFind, hx]
    · obtain ⟨i', rfl⟩ : ∃ i', i = i' + 1 := ⟨i - 1, by omega⟩
      have hlt' : i' < xs.length := by simpa using Nat.lt_of_succ_lt_succ h
      have hget' : xs.get ⟨i', hlt'⟩ = c := by simpa [List.get] using hget
      have hcmem : c ∈ xs := hget' ▸ List.get_mem xs i' hlt'
      have hx : x ≠ c := by
        rintro rfl
        have hpos : 0 < xs.count x := List.count_pos_iff.mpr hcmem
        rw [List.count_cons_self] at hcount
        omega
      have hcount' : xs.count c ≤ 1 := by
        rw [List.count_cons] at hcount
        omega
      have hfind := ih hcount' i' hlt' hget'
      simp only [pyFind, if_neg hx, hfind]
      rw [if_neg (by omega)]
      push_cast
      omega

lemma neg_one_le_rfindAny (seps : List Char) : ∀ s : Txt, -1 ≤ rfindAny seps s := by
  intro s
  induction s with
  | nil => simp [rfindAny]
  | cons x xs ih =>
    simp only [rfindAny]
    by_cases h0 : 0 ≤ rfindAny seps xs
    · rw [if_pos h0]; omega
    · rw [if_neg h0]
      by_cases hx : x ∈ seps <;> simp [hx]

lemma rfindAny_get (seps : List Char) : ∀ (s : Txt) (k : Nat),
    rfindAny seps s = (k : Int) → ∃ h : k < s.length, s.get ⟨k, h⟩ ∈ seps := by
  intro s
  induction s with
  | nil =>
    intro k h
    simp [rfindAny] at h
  | cons x xs ih =>
    intro k h
    simp only [rfindAny] at h
    by_cases h0 : 0 ≤ rfindAny seps xs
    · rw [if_pos h0] at h
      obtain ⟨k', rfl⟩ : ∃ k', k = k' + 1 := ⟨k - 1, by omega⟩
      have h' : rfindAny seps xs = (k' : Int) := by push_cast at h ⊢; omega
      obtain ⟨hlt, hg⟩ := ih k' h'
      exact ⟨by simpa using Nat.succ_lt_succ hlt, by simpa [List.get] using hg⟩
    · rw [if_neg h0] at h
      by_cases hx : x ∈ seps
      · rw [if_pos hx] at h
        have hk : k = 0 := by omega
        subst hk
        exact ⟨by simp, by simpa [List.get] using hx⟩
      · rw [if_neg hx] at h; omega

lemma le_rfindAny (seps : List Char) : ∀ (s : Txt) (i : Nat) (h : i < s.length),
    s.get ⟨i, h⟩ ∈ seps → (i : Int) ≤ rfindAny seps s := by
  intro s
  induction s with
  | nil => intro i h; simp at h
  | cons x xs ih =>
    intro i h hg
    rcases Nat.eq_zero_or_pos i with rfl | hi
    · simp only [rfindAny]
      by_cases h0 : 0 ≤ rfindAny seps xs
      · rw [if_pos h0]
        have := neg_one_le_rfindAny seps xs
        omega
      · have hx : x ∈ seps := by simpa [List.get] using hg
        rw [if_neg h0, if_pos hx]
        simp
    · obtain ⟨i', rfl⟩ : ∃ i', i = i' + 1 := ⟨i - 1, by omega⟩
      have hlt' : i' < xs.length := by simpa using Nat.lt_of_succ_lt_succ h
      have hg' : xs.get ⟨i', hlt'⟩ ∈ seps := by simpa [List.get] using hg
      have hle := ih i' hlt' hg'
      simp only [rfindAny]
      have h0 : 0 ≤ rfindAny seps xs := le_trans (by omega) hle
      rw [if_pos h0]
      push_cast
      omega

lemma sepPos_le_rfindAny (dep : Txt) : sepPos dep ≤ rfindAny separators dep := by
  unfold sepPos
  rcases foldl_max_cases (separators.map (fun c => pyFind c dep)) (-1) with h | h
  · rw [h]; exact neg_one_le_rfindAny separators dep
  · obtain ⟨c, hc, hv⟩ := List.mem_map.mp h
    rcases lt_or_ge ((separators.map (fun c => pyFind c dep)).foldl max (-1)) 0
        with hneg | hpos
    · have := neg_one_le_rfindAny separators dep
      omega
    · obtain ⟨k, hk⟩ : ∃ k : Nat,
          (separators.map (fun c => pyFind c dep)).foldl max (-1) = (k : Int) :=
        ⟨((separators.map (fun c => pyFind c dep)).foldl max (-1)).toNat, by omega⟩
      obtain ⟨hlt, hget⟩ := pyFind_get c dep k (by rw [hv, hk])
      have := le_rfindAny separators dep k hlt (by rw [hget]; exact hc)
      omega

lemma rfindAny_le_sepPos (dep : Txt)
    (hcount : ∀ c ∈ separators, dep.count c ≤ 1) :
    rfindAny separators dep ≤ sepPos dep := by
  rcases lt_or_ge (rfindAny separators dep) 0 with hneg | hpos
  · have := foldl_max_init (separators.map fun c => pyFind c dep) (-1)
    unfold sepPos
    omega
  · obtain ⟨k, hk⟩ : ∃ k : Nat, rfindAny separators dep = (k : Int) :=
      ⟨(rfindAny separators dep).toNat, by omega⟩
    obtain ⟨hlt, hmem⟩ := rfindAny_get separators dep k hk
    have hfind : pyFind (dep.get ⟨k, hlt⟩) dep = (k : Int) :=
      pyFind_unique _ dep (hcount _ hmem) k hlt rfl
    have hle : pyFind (dep.get ⟨k, hlt⟩) dep ≤ sepPos dep := by
      unfold sepPos
      exact foldl_max_mem _ _ _ (List.mem_map.mpr ⟨_, hmem, rfl⟩)
    omega

lemma sepPos_append_star (dep : Txt) (h : ∀ c ∈ separators, c ∉ dep) :
    sepPos (dep ++ ['*']) = (dep.length : Int) := by
  have hstar : pyFind '*' (dep ++ ['*']) = (dep.length : Int) :=
    pyFind_append_self '*' dep (h '*' (by decide))
  have hothers : ∀ c, c ∈ separators → c ≠ '*' → pyFind c (dep ++ ['*']) = -1 := by
    intro c hc hne
    apply pyFind_of_not_mem
    rw [List.mem_append]
    rintro (hm | hm)
    · exact h c hc hm
    · simp at hm; exact hne hm
  unfold sepPos separators
  simp only [List.map]
  rw [hothers '=' (by decide) (by decide), hothers '^' (by decide) (by decide),
      hothers '~' (by decide) (by decide), hothers '<' (by decide) (by decide),
      hothers '>' (by decide) (by decide), hstar]
  simp only [List.foldl]
  rw [max_self, max_self, max_self, max_self, max_self]
  exact max_eq_right (by omega)

/-! ### Lemmas about the header/entry pair scan -/

lemma deleteEntryLines_cons₂ (array key x y : Txt) (rest : List Txt) :
    deleteEntryLines array key (x :: y :: rest) =
      if (key ++ (" =").data) <+: y ∧ x = headerOf array then some rest
      else
        match deleteEntryLines array key (y :: rest) with
        | some res => some (x :: res)
        | none => none := rfl

lemma hasPair_cons (array key x y : Txt) (rest : List Txt) :
    HasPair array key (x :: y :: rest) ↔
      ((key ++ (" =").data) <+: y ∧ x = headerOf array)
        ∨ HasPair array key (y :: rest) := by
  constructor
  · rintro ⟨pr, hpr, hcond⟩
    rw [List.tail_cons, List.zip_cons_cons] at hpr
    rcases List.mem_cons.mp hpr with rfl | hpr
    · exact .inl hcond
    · exact .inr ⟨pr, by rwa [List.tail_cons], hcond⟩
  · rintro (hcond | ⟨pr, hpr, hcond⟩)
    · exact ⟨(x, y), by simp [List.zip_cons_cons], hcond⟩
    · refine ⟨pr, ?_, hcond⟩
      rw [List.tail_cons, List.zip_cons_cons]
      rw [List.tail_cons] at hpr
      exact List.mem_cons_of_mem _ hpr

lemma deleteEntryLines_eq_none (array key : Txt) :
    ∀ L : List Txt, ¬ HasPair array key L → deleteEntryLines array key L = none := by
  intro L
  induction L with
  | nil => intro _; rfl
  | cons x L ih =>
    intro h
    rcases L with _ | ⟨y, rest⟩
    · rfl
    · have hpair : ¬ ((key ++ (" =").data) <+: y ∧ x = headerOf array) :=
        fun hc => h ((hasPair_cons array key x y rest).mpr (.inl hc))
      have hrest : ¬ HasPair array key (y :: rest) :=
        fun hr => h ((hasPair_cons array key x y rest).mpr (.inr hr))
      rw [deleteEntryLines_cons₂, if_neg hpair, ih hrest]

lemma not_keyPre_prefix_newline (key : Txt) :
    ¬ ((key ++ (" =").data) <+: (['\n'] : Txt)) := by
  intro h
  have := h.length_le
  simp at this

lemma newline_ne_headerOf (array : Txt) : (['\n'] : Txt) ≠ headerOf array := by
  intro h
  have := congrArg List.length h
  simp [headerOf] at this

lemma deleteEntryLines_found (array key entry : Txt)
    (hpre : (key ++ (" =").data) <+: entry) :
    ∀ L : List Txt, ¬ HasPair array key L →
      deleteEntryLines array key (L ++ [['\n'], headerOf array, entry])
        = some (L ++ [['\n']]) := by
  intro L
  induction L with
  | nil =>
    intro _
    simp only [List.nil_append]
    rw [deleteEntryLines_cons₂,
        if_neg (fun hc => newline_ne_headerOf array hc.2),
        deleteEntryLines_cons₂, if_pos ⟨hpre, rfl⟩]
  | cons x L ih =>
    intro h
    rcases L with _ | ⟨y, rest⟩
    · simp only [List.cons_append, List.nil_append] at ih ⊢
      rw [deleteEntryLines_cons₂,
          if_neg (fun hc => not_keyPre_prefix_newline key hc.1),
          ih (by simp [HasPair])]
    · have hpair : ¬ ((key ++ (" =").data) <+: y ∧ x = headerOf array) :=
        fun hc => h ((hasPair_cons array key x y rest).mpr (.inl hc))
      have hrest : ¬ HasPair array key (y :: rest) :=
        fun hr => h ((hasPair_cons array key x y rest).mpr (.inr hr))
      simp only [List.cons_append] at ih ⊢
      rw [deleteEntryLines_cons₂, if_neg hpair, ih hrest]

/-! ### Frame lemmas for the subprocess wrapper -/

lemma run_alr_frame (oracle : Oracle) (q : Txt → Txt)
    (c d f qt : Bool) (args : List Txt) (st : TState) :
    (opState (run_alr oracle q c d f qt args st)).manifest = st.manifest ∧
    (opState (run_alr oracle q c d f qt args st)).manifestMtime = st.manifestMtime ∧
    (opState (run_alr oracle q c d f qt args st)).lockMtime = st.lockMtime ∧
    (opState (run_alr oracle q c d f qt args st)).writes = st.writes ∧
    (opState (run_alr oracle q c d f qt args st)).copies = st.copies := by
  simp only [run_alr]
  split <;> simp [opState]

lemma run_alr_ok_zero (oracle : Oracle) (q : Txt → Txt)
    (c d f qt : Bool) (args : List Txt) (st : TState)
    (h : (oracle (alr_argv d f qt args)).fst = 0) :
    run_alr oracle q c d f qt args st =
      .ok (ProcessResult.mk 0 (crlf_to_lf (oracle (alr_argv d f qt args)).snd))
        { st with calls := st.calls ++ [alr_argv d f qt args] } := by
  simp only [run_alr]
  rw [if_neg (by simp [h])]
  rw [h]

/-! ### Concrete sandboxes for the counterexamples and witnesses -/

/-- A subprocess oracle whose every invocation exits with status 0. -/
def oracle0 : Oracle := fun _ => (0, [])

/-- A subprocess oracle whose every invocation exits with status 1 and
output `boom`. -/
def oracle1 : Oracle := fun _ => (1, ("boom").data)

/-- Trivial shell quoting (adequate for arguments without specials). -/
def qid : Txt → Txt := id

/-- A freshly initialized crate sandbox: a one-line manifest, equal
manifest/lockfile timestamps. -/
def stA : TState := ⟨("name = \"xxx\"\n").data, 5, 5, [], [], [], []⟩

/-- A sandbox whose manifest holds one dependency entry for `libfoo`. -/
def stDeps : TState := ⟨("[[depends-on]]\nlibfoo = \"*\"\n").data, 5, 5, [], [], [], []⟩

/-- A sandbox with a distinguishable lockfile timestamp. -/
def stLock7 : TState := ⟨("name = \"xxx\"\n").data, 5, 7, [], [], [], []⟩

/-- A sandbox with an empty manifest. -/
def stEmpty : TState := ⟨[], 5, 5, [], [], [], []⟩

/-- C3 (code_bug): on a manifest that does contain a `[[depends-on]]`
entry for the bare crate name `libfoo`, the manual delete branch of
`alr_with` does not remove the entry; the wildcard-fixing step rewrites
the expression to `libfoo*` even though this is a deletion, the scan then
looks for an entry line starting `libfoo* =`, finds nothing, and raises
the (message-less) missing-entry `RuntimeError`, leaving the state
untouched.  The claim — deletion succeeds and does not fail with
`MutationNotFound` — is what the code clearly intends and fails to do. -/
theorem with_delete_bare_name_raises :
    alr_with oracle0 qid 6 (("libfoo").data) [] [] [] [] true true true false
        stDeps
      = .err (.runtimeError []) stDeps := by decide

/-- C1 (counterexample): pinning `libfoo` to `path = "../libfoo"` manually
and then unpinning manually does not restore the manifest byte for byte:
both operations succeed, but the blank separator line appended before
`[[pins]]` survives the unpin, so the final manifest is the original plus
one extra newline. -/
theorem pin_unpin_not_byte_identical :
    isOk (alr_pin oracle0 qid 3 (("libfoo").data) [] (("../libfoo").data)
        [] [] [] true true stA) = true ∧
    isOk (alr_unpin oracle0 qid 4 (("libfoo").data) true true true
        (opState (alr_pin oracle0 qid 3 (("libfoo").data) [] (("../libfoo").data)
          [] [] [] true true stA))) = true ∧
    (opState (alr_unpin oracle0 qid 4 (("libfoo").data) true true true
        (opState (alr_pin oracle0 qid 3 (("libfoo").data) [] (("../libfoo").data)
          [] [] [] true true stA)))).manifest ≠ stA.manifest ∧
    (opState (alr_unpin oracle0 qid 4 (("libfoo").data) true true true
        (opState (alr_pin oracle0 qid 3 (("libfoo").data) [] (("../libfoo").data)
          [] [] [] true true stA)))).manifest = stA.manifest ++ ['\n'] := by
  decide

/-- C2 (counterexample): a manual pin that supplies both `path` and `url`
is not rejected: no error is raised, and the path variant is silently
written to the manifest (the source checks commit/branch exclusivity but
never path/url in `alr_pin`). -/
theorem pin_path_url_not_rejected :
    errPayload (alr_pin oracle0 qid 2 (("foo").data) [] (("p").data)
        (("u").data) [] [] true false stA) = none ∧
    (opState (alr_pin oracle0 qid 2 (("foo").data) [] (("p").data)
        (("u").data) [] [] true false stA)).manifest
      = stA.manifest ++ ("\n[[pins]]\nfoo = \x7b path = \x27p\x27 \x7d\n").data := by
  decide

/-- C4 (counterexample): on `a^1^2` — an expression containing separator
characters — the split position computed by the code (`max` of the first
occurrence of each separator character) is 1, while the right-most
occurrence of a separator character is at 3; adding the dependency
manually writes the entry `a = "^1^2"`, not the `a^1 = "^2"` that the
right-most-occurrence reading predicts. -/
theorem sepPos_not_rightmost_occurrence :
    sepPos (("a^1^2").data) = 1 ∧
    rfindAny separators (("a^1^2").data) = 3 ∧
    errPayload (alr_with oracle0 qid 6 (("a^1^2").data) [] [] [] []
        false true false false stEmpty) = none ∧
    (opState (alr_with oracle0 qid 6 (("a^1^2").data) [] [] [] []
        false true false false stEmpty)).manifest
      = ("\n[[depends-on]]\na = \"^1^2\"\n").data ∧
    pyTake (("a^1^2").data) (rfindAny separators (("a^1^2").data))
      = ("a^1").data := by
  decide

/-- C5 (counterexample): a manual pin call that supplies none of version,
path and url does raise the `ValidationFailure`, but only after the
precautionary unpin has already reset the lockfile's timestamp to the
epoch — a side effect before the validation error, so the lockfile is not
left exactly as it was. -/
theorem pin_empty_spec_mutates_before_validation_error :
    errPayload (alr_pin oracle0 qid 2 (("foo").data) [] [] [] [] []
        true true stLock7)
      = some (.valueError (("Specify either version, path or url").data)) ∧
    (opState (alr_pin oracle0 qid 2 (("foo").data) [] [] [] [] []
        true true stLock7)).lockMtime = 0 ∧
    stLock7.lockMtime = 7 := by
  decide

/-- C7 (counterexample): when the subprocess exits non-zero, the raised
`CalledProcessError` itself carries only the fixed message — neither the
argument vector (`frobnicate`) nor the captured output (`boom`) occurs in
its payload; they are printed instead. -/
theorem invocation_error_payload_lacks_argv :
    errPayload (run_alr oracle1 qid true true false true
        [("frobnicate").data] stA)
      = some (.calledProcessError (("alr returned non-zero status code").data)) ∧
    ¬ ((("frobnicate").data : Txt) <:+: ("alr returned non-zero status code").data) ∧
    ¬ ((("boom").data : Txt) <:+: ("alr returned non-zero status code").data) := by
  decide

instance decidableHasPair (array key : Txt) (lines : List Txt) :
    Decidable (HasPair array key lines) :=
  List.decidableBEx _ (lines.zip lines.tail)

/-! ### Prefix helpers -/

lemma not_prefix_head_ne {a b : Char} (hab : a ≠ b) (u v : Txt) :
    ¬ ((a :: u) <+: b :: v) := by
  rw [List.cons_prefix_cons]
  rintro ⟨h, -⟩
  exact hab h

lemma not_prefix_append_head {a b : Char} (hab : a ≠ b) (u v w : Txt) :
    ¬ ((a :: u) <+: (b :: v) ++ w) := by
  rw [List.cons_append]
  exact not_prefix_head_ne hab u (v ++ w)

/-- C9 (confirmed): when the manifest contains no adjacent header/entry
pair for the targeted array and key, `delete_array_entry_from_manifest`
with `fail_if_missing = false` succeeds and leaves the manifest content
byte-identical (the file is never rewritten on this path). -/
theorem remove_absent_no_fail_manifest_unchanged
    (oracle : Oracle) (q : Txt → Txt) (now : Nat) (array key : Txt)
    (upd : Bool) (st : TState)
    (h : ¬ HasPair array key (readlines st.manifest)) :
    ∃ st', delete_array_entry_from_manifest oracle q now array key false upd st
        = .ok () st' ∧ st'.manifest = st.manifest := by
  refine ⟨{ st with lockMtime := 0 }, ?_, rfl⟩
  unfold delete_array_entry_from_manifest
  rw [deleteEntryLines_eq_none array key _ h]
  rfl

/-- C10 (confirmed): on the same silent no-op path (absent pair,
`fail_if_missing = false`), the lockfile's mtime is nevertheless reset to
the epoch, even though the manifest file and its mtime are untouched: the
`os.utime` at the end of the source function is reached. -/
theorem remove_absent_no_fail_resets_lockfile
    (oracle : Oracle) (q : Txt → Txt) (now : Nat) (array key : Txt)
    (upd : Bool) (st : TState)
    (h : ¬ HasPair array key (readlines st.manifest)) :
    ∃ st', delete_array_entry_from_manifest oracle q now array key false upd st
        = .ok () st' ∧ st'.lockMtime = 0 ∧ st'.manifest = st.manifest ∧
        st'.manifestMtime = st.manifestMtime := by
  refine ⟨{ st with lockMtime := 0 }, ?_, rfl, rfl, rfl⟩
  unfold delete_array_entry_from_manifest
  rw [deleteEntryLines_eq_none array key _ h]
  rfl

/-- C4 (corrected): the split position used by `alr_with` is the largest
among the first occurrences of each separator character; whenever no
separator character occurs more than once in the expression, this equals
the right-most occurrence of any separator character.  Without that
proviso the two can differ (see the counterexample on `a^1^2`), although
they may also coincide for some expressions with a repeated separator. -/
theorem sepPos_eq_rightmost_when_no_repeats (dep : Txt)
    (h : ∀ c ∈ separators, dep.count c ≤ 1) :
    sepPos dep = rfindAny separators dep :=
  le_antisymm (sepPos_le_rfindAny dep) (rfindAny_le_sepPos dep h)

/-- C4 witness. -/
theorem sepPos_eq_rightmost_when_no_repeats_witness :
    sepPos (("foo>=1.0").data) = rfindAny separators (("foo>=1.0").data) :=
  sepPos_eq_rightmost_when_no_repeats (("foo>=1.0").data) (by decide)

/-- C7 (corrected): on a non-zero exit with complaints enabled, `run_alr`
prints the full (quoted) argument vector, the status and the captured raw
output, and then fails with a `CalledProcessError` whose payload is the
fixed message `alr returned non-zero status code`; the argument vector and
output are in the printed log, not carried by the error itself (see the
counterexample). -/
theorem invocation_failure_prints_and_fixed_message
    (oracle : Oracle) (q : Txt → Txt) (d f qt : Bool) (args : List Txt)
    (st : TState) (h : (oracle (alr_argv d f qt args)).fst ≠ 0) :
    run_alr oracle q true d f qt args st =
      .err (.calledProcessError (("alr returned non-zero status code").data))
        { st with
          calls := st.calls ++ [alr_argv d f qt args],
          printed := st.printed ++
            [("The following command:").data,
             ("  ").data ++ joinSp ((alr_argv d f qt args).map q),
             ("Exitted with status code ").data
               ++ intToTxt (oracle (alr_argv d f qt args)).fst,
             ("Output:").data,
             (oracle (alr_argv d f qt args)).snd] } := by
  simp only [run_alr]
  rw [if_pos ⟨h, trivial⟩]

/-- C7 witness. -/
theorem invocation_failure_prints_and_fixed_message_witness :
    run_alr oracle1 qid true true false true [("frobnicate").data] stA =
      .err (.calledProcessError (("alr returned non-zero status code").data))
        { stA with
          calls := stA.calls ++ [alr_argv true false true [("frobnicate").data]],
          printed := stA.printed ++
            [("The following command:").data,
             ("  ").data ++ joinSp ((alr_argv true false true
                [("frobnicate").data]).map qid),
             ("Exitted with status code ").data
               ++ intToTxt (oracle1 (alr_argv true false true
                  [("frobnicate").data])).fst,
             ("Output:").data,
             (oracle1 (alr_argv true false true [("frobnicate").data])).snd] } :=
  invocation_failure_prints_and_fixed_message oracle1 qid true false true
    [("frobnicate").data] stA (by decide)

/-- C9 witness. -/
theorem remove_absent_no_fail_manifest_unchanged_witness :
    ∃ st', delete_array_entry_from_manifest oracle0 qid 9 (("pins").data)
        (("libfoo").data) false true stA = .ok () st' ∧
        st'.manifest = stA.manifest :=
  remove_absent_no_fail_manifest_unchanged oracle0 qid 9 (("pins").data)
    (("libfoo").data) true stA (by decide)

/-- C10 witness. -/
theorem remove_absent_no_fail_resets_lockfile_witness :
    ∃ st', delete_array_entry_from_manifest oracle0 qid 9 (("depends-on").data)
        (("libbar").data) false false stLock7 = .ok () st' ∧
        st'.lockMtime = 0 ∧ st'.manifest = stLock7.manifest ∧
        st'.manifestMtime = stLock7.manifestMtime :=
  remove_absent_no_fail_resets_lockfile oracle0 qid 9 (("depends-on").data)
    (("libbar").data) false stLock7 (by decide)

/-- C2 (corrected): for manual pins, (1) supplying both commit and branch
fails with the conflicting-options error before anything is written (the
state at the raise point is the input state), and (2) every entry the
manual branch can write carries exactly one of the three source fields:
the inline table after `crate = \x7b ` starts with exactly one of
`version`, `path`, `url`.  However (3) — contrary to the claim —
supplying both path and url is not rejected: with no version, the path
variant is chosen and the url silently ignored (see the counterexample). -/
theorem pin_exactly_one_source_and_commit_branch_guard
    (oracle : Oracle) (q : Txt → Txt) (now : Nat)
    (crate version path url commit branch : Txt) (m upd : Bool) (st : TState) :
    (commit ≠ [] → branch ≠ [] →
      alr_pin oracle q now crate version path url commit branch m upd st
        = .err (.runtimeError (("Do not specify both commit and branch").data)) st) ∧
    (∀ L, pin_line crate version path url commit branch = some L →
      ∃ rest, L = crate ++ (" = \x7b ").data ++ rest ∧
        (((("version").data <+: rest) ∧ ¬ (("path").data <+: rest)
            ∧ ¬ (("url").data <+: rest))
          ∨ (¬ (("version").data <+: rest) ∧ (("path").data <+: rest)
            ∧ ¬ (("url").data <+: rest))
          ∨ (¬ (("version").data <+: rest) ∧ ¬ (("path").data <+: rest)
            ∧ (("url").data <+: rest)))) ∧
    (version = [] → path ≠ [] →
      pin_line crate version path url commit branch
        = some (crate ++ (" = \x7b path = \x27").data ++ path
            ++ ("\x27 \x7d").data)) := by
  refine ⟨?_, ?_, ?_⟩
  · intro hc hb
    unfold alr_pin
    rw [if_pos ⟨hc, hb⟩]
  · intro L hL
    unfold pin_line at hL
    split_ifs at hL with h1 h2 h3 h4 h5
    · obtain rfl : _ = L := Option.some.inj hL
      refine ⟨("version = \"").data ++ version ++ ("\" \x7d").data, ?_, ?_⟩
      · rw [show ((" = \x7b version = \"").data : Txt)
              = (" = \x7b ").data ++ ("version = \"").data from by decide]
        simp only [List.append_assoc]
      · left
        refine ⟨(by decide : (("version").data : Txt) <+: ("version = \"").data).trans
            ((List.prefix_append _ _).trans (List.prefix_append _ _)), ?_, ?_⟩
        · rw [List.append_assoc,
              show (("version = \"").data : Txt) = 'v' :: ("ersion = \"").data from by decide,
              show (("path").data : Txt) = 'p' :: ("ath").data from by decide]
          exact not_prefix_append_head (by decide) _ _ _
        · rw [List.append_assoc,
              show (("version = \"").data : Txt) = 'v' :: ("ersion = \"").data from by decide,
              show (("url").data : Txt) = 'u' :: ("rl").data from by decide]
          exact not_prefix_append_head (by decide) _ _ _
    · obtain rfl : _ = L := Option.some.inj hL
      refine ⟨("path = \x27").data ++ path ++ ("\x27 \x7d").data, ?_, ?_⟩
      · rw [show ((" = \x7b path = \x27").data : Txt)
              = (" = \x7b ").data ++ ("path = \x27").data from by decide]
        simp only [List.append_assoc]
      · right; left
        refine ⟨?_, (by decide : (("path").data : Txt) <+: ("path = \x27").data).trans
            ((List.prefix_append _ _).trans (List.prefix_append _ _)), ?_⟩
        · rw [List.append_assoc,
              show (("path = \x27").data : Txt) = 'p' :: ("ath = \x27").data from by decide,
              show (("version").data : Txt) = 'v' :: ("ersion").data from by decide]
          exact not_prefix_append_head (by decide) _ _ _
        · rw [List.append_assoc,
              show (("path = \x27").data : Txt) = 'p' :: ("ath = \x27").data from by decide,
              show (("url").data : Txt) = 'u' :: ("rl").data from by decide]
          exact not_prefix_append_head (by decide) _ _ _
    · obtain rfl : _ = L := Option.some.inj hL
      refine ⟨("url = \x27").data ++ url ++ ("\x27, commit = \x27").data
          ++ commit ++ ("\x27 \x7d").data, ?_, ?_⟩
      · rw [show ((" = \x7b url = \x27").data : Txt)
              = (" = \x7b ").data ++ ("url = \x27").data from by decide]
        simp only [List.append_assoc]
      · right; right
        refine ⟨?_, ?_, ?_⟩
        · simp only [List.append_assoc]
          exact not_prefix_append_head (by decide) _ _ _
        · simp only [List.append_assoc]
          exact not_prefix_append_head (by decide) _ _ _
        · simp only [List.append_assoc]
          exact (by decide : (("url").data : Txt) <+: ("url = \x27").data).trans
            (List.prefix_append _ _)
    · obtain rfl : _ = L := Option.some.inj hL
      refine ⟨("url = \x27").data ++ url ++ ("\x27, branch = \x27").data
          ++ branch ++ ("\x27 \x7d").data, ?_, ?_⟩
      · rw [show ((" = \x7b url = \x27").data : Txt)
              = (" = \x7b ").data ++ ("url = \x27").data from by decide]
        simp only [List.append_assoc]
      · right; right
        refine ⟨?_, ?_, ?_⟩
        · simp only [List.append_assoc]
          exact not_prefix_append_head (by decide) _ _ _
        · simp only [List.append_assoc]
          exact not_prefix_append_head (by decide) _ _ _
        · simp only [List.append_assoc]
          exact (by decide : (("url").data : Txt) <+: ("url = \x27").data).trans
            (List.prefix_append _ _)
    · obtain rfl : _ = L := Option.some.inj hL
      refine ⟨("url = \x27").data ++ url ++ ("\x27 \x7d").data, ?_, ?_⟩
      · rw [show ((" = \x7b url = \x27").data : Txt)
              = (" = \x7b ").data ++ ("url = \x27").data from by decide]
        simp only [List.append_assoc]
      · right; right
        refine ⟨?_, ?_, ?_⟩
        · rw [List.append_assoc,
              show (("url = \x27").data : Txt) = 'u' :: ("rl = \x27").data from by decide,
              show (("version").data : Txt) = 'v' :: ("ersion").data from by decide]
          exact not_prefix_append_head (by decide) _ _ _
        · rw [List.append_assoc,
              show (("url = \x27").data : Txt) = 'u' :: ("rl = \x27").data from by decide,
              show (("path").data : Txt) = 'p' :: ("ath").data from by decide]
          exact not_prefix_append_head (by decide) _ _ _
        · rw [List.append_assoc]
          exact (by decide : (("url").data : Txt) <+: ("url = \x27").data).trans
            (List.prefix_append _ _)
  · intro hv hp
    unfold pin_line
    rw [if_neg (by simp [hv]), if_pos hp]

/-- C2 witness. -/
theorem pin_exactly_one_source_and_commit_branch_guard_witness :
    (alr_pin oracle0 qid 2 (("foo").data) [] [] [] (("c1").data) (("b1").data)
        true true stA
      = .err (.runtimeError (("Do not specify both commit and branch").data)) stA) ∧
    (∃ rest, (("foo").data : Txt) ++ (" = \x7b version = \"1.0\" \x7d").data
        = ("foo").data ++ (" = \x7b ").data ++ rest ∧
        (((("version").data <+: rest) ∧ ¬ (("path").data <+: rest)
            ∧ ¬ (("url").data <+: rest))
          ∨ (¬ (("version").data <+: rest) ∧ (("path").data <+: rest)
            ∧ ¬ (("url").data <+: rest))
          ∨ (¬ (("version").data <+: rest) ∧ ¬ (("path").data <+: rest)
            ∧ (("url").data <+: rest)))) := by
  constructor
  · exact (pin_exactly_one_source_and_commit_branch_guard oracle0 qid 2
      (("foo").data) [] [] [] (("c1").data) (("b1").data) true true stA).1
      (by decide) (by decide)
  · exact (pin_exactly_one_source_and_commit_branch_guard oracle0 qid 2
      (("foo").data) (("1.0").data) [] [] [] [] true true stA).2.1
      ((("foo").data : Txt) ++ (" = \x7b version = \"1.0\" \x7d").data)
      (by decide)

/-! ### The wildcard-fixing step -/

lemma fix_dep_append (dep : Txt) (h : ∀ c ∈ separators, c ∉ dep) :
    fix_dep true dep = dep ++ ['*'] := by
  have hany : (separators.any fun c => decide (c ∈ dep)) = false := by
    rw [List.any_eq_false]
    intro c hc
    simp [h c hc]
  unfold fix_dep
  rw [hany]
  simp

lemma pyTake_append_length (dep : Txt) (tail : Txt) :
    pyTake (dep ++ tail) (dep.length : Int) = dep := by
  unfold pyTake pyIdx
  rw [if_neg (by omega)]
  rw [Int.toNat_natCast, min_eq_left (by simp)]
  exact List.take_left dep tail

lemma pyDrop_append_length (dep : Txt) (tail : Txt) :
    pyDrop (dep ++ tail) (dep.length : Int) = tail := by
  unfold pyDrop pyIdx
  rw [if_neg (by omega)]
  rw [Int.toNat_natCast, min_eq_left (by simp)]
  exact List.drop_left dep tail

/-- C8 (confirmed): adding a dependency expression that contains no
version-operator character, manually, appends the wildcard: the call
succeeds, the manifest gains `\n[[depends-on]]\n` followed by the entry
`dep = "*"`, the lockfile mtime is reset to the epoch and the manifest
mtime is the write time. -/
theorem with_bare_dep_appends_wildcard_entry
    (oracle : Oracle) (q : Txt → Txt) (now : Nat) (dep : Txt)
    (upd frc : Bool) (st : TState)
    (hne : dep ≠ []) (hsep : ∀ c ∈ separators, c ∉ dep)
    (hor : ∀ a, (oracle a).fst = 0) :
    isOk (alr_with oracle q now dep [] [] [] [] false true upd frc st) = true ∧
    (opState (alr_with oracle q now dep [] [] [] [] false true upd frc st)).manifest
      = st.manifest ++ ("\n[[depends-on]]\n").data
        ++ dep ++ (" = \"").data ++ ("*").data ++ ("\"\n").data ∧
    (opState (alr_with oracle q now dep [] [] [] [] false true upd frc st)).lockMtime
      = 0 ∧
    (opState (alr_with oracle q now dep [] [] [] [] false true upd frc st)).manifestMtime
      = now := by
  have hfix : fix_dep true dep = dep ++ ['*'] := fix_dep_append dep hsep
  have hpos : sepPos (dep ++ ['*']) = (dep.length : Int) := sepPos_append_star dep hsep
  have htake := pyTake_append_length dep ['*']
  have hdrop := pyDrop_append_length dep ['*']
  have hrun : ∀ (fr : Bool) (s : TState),
      run_alr oracle q true true fr true [("with").data] s
        = .ok (ProcessResult.mk 0
            (crlf_to_lf (oracle (alr_argv true fr true [("with").data])).snd))
            { s with calls := s.calls ++ [alr_argv true fr true [("with").data]] } :=
    fun fr s => run_alr_ok_zero oracle q true true fr true [("with").data] s (hor _)
  cases upd with
  | false =>
    simp [alr_with, hfix, hpos, htake, hdrop, hne, opState, isOk]
  | true =>
    simp [alr_with, hfix, hpos, htake, hdrop, hne, hrun, opState, isOk]

/-- C8 witness. -/
theorem with_bare_dep_appends_wildcard_entry_witness :
    isOk (alr_with oracle0 qid 6 (("libfoo").data) [] [] [] []
        false true true false stA) = true ∧
    (opState (alr_with oracle0 qid 6 (("libfoo").data) [] [] [] []
        false true true false stA)).manifest
      = stA.manifest ++ ("\n[[depends-on]]\n").data
        ++ ("libfoo").data ++ (" = \"").data ++ ("*").data ++ ("\"\n").data ∧
    (opState (alr_with oracle0 qid 6 (("libfoo").data) [] [] [] []
        false true true false stA)).lockMtime = 0 ∧
    (opState (alr_with oracle0 qid 6 (("libfoo").data) [] [] [] []
        false true true false stA)).manifestMtime = 6 :=
  with_bare_dep_appends_wildcard_entry oracle0 qid 6 (("libfoo").data)
    true false stA (by decide) (by decide) (fun _ => rfl)

/-! ### Post-state lemmas for the manual mutation branches -/

lemma delete_found_post (oracle : Oracle) (q : Txt → Txt) (now : Nat)
    (array key : Txt) (fim upd : Bool) (st st' : TState) (ls : List Txt)
    (hls : deleteEntryLines array key (readlines st.manifest) = some ls)
    (h : delete_array_entry_from_manifest oracle q now array key fim upd st
          = .ok () st') :
    st'.lockMtime = 0 ∧ st'.manifestMtime = now ∧ st'.manifest = joinLines ls := by
  unfold delete_array_entry_from_manifest at h
  split at h
  · rename_i newLines heq
    obtain rfl : ls = newLines := Option.some.inj (hls.symm.trans heq)
    split at h
    · dsimp only [] at h
      split at h
      · rename_i hupd a st2 heq2
        cases h
        have hf := run_alr_frame oracle q true true false true [("pin").data]
          { st with manifest := joinLines ls, manifestMtime := now }
        rw [heq2] at hf
        simp only [opState] at hf
        exact ⟨rfl, hf.2.1, hf.1⟩
      · exact absurd h (by simp)
    · cases h
      exact ⟨rfl, rfl, rfl⟩
  · rename_i heq
    rw [hls] at heq
    exact absurd heq (by simp)

lemma pin_manual_ok_post (oracle : Oracle) (q : Txt → Txt) (now : Nat)
    (crate version path url commit branch : Txt) (upd : Bool) (st st' : TState)
    (h : alr_pin oracle q now crate version path url commit branch true upd st
          = .ok () st') :
    st'.lockMtime = 0 ∧ st'.manifestMtime = now := by
  unfold alr_pin at h
  by_cases hcb : commit ≠ [] ∧ branch ≠ []
  · rw [if_pos hcb] at h
    exact absurd h (by simp)
  · rw [if_neg hcb, if_pos rfl] at h
    split at h
    · exact absurd h (by simp)
    · rename_i a st1 heq
      split at h
      · exact absurd h (by simp)
      · rename_i line hline
        cases upd with
        | false =>
          simp only [Bool.false_eq_true, if_false] at h
          cases h
          exact ⟨rfl, rfl⟩
        | true =>
          rw [if_pos rfl] at h
          split at h
          · rename_i x st4 heq2
            cases h
            have hf := run_alr_frame oracle q true true false true [("pin").data]
              { st1 with
                manifest := st1.manifest ++ ("\n[[pins]]\n").data ++ line ++ ['\n'],
                manifestMtime := now, lockMtime := 0 }
            rw [heq2] at hf
            simp only [opState] at hf
            exact ⟨hf.2.2.1, hf.2.1⟩
          · exact absurd h (by simp)

lemma with_manual_add_ok_post (oracle : Oracle) (q : Txt → Txt) (now : Nat)
    (dep path url commit branch : Txt) (upd frc : Bool) (st st' : TState)
    (h : alr_with oracle q now dep path url commit branch false true upd frc st
          = .ok () st') :
    st'.lockMtime = 0 ∧ st'.manifestMtime = now := by
  simp only [alr_with] at h
  by_cases h1 : commit ≠ [] ∧ branch ≠ []
  · rw [if_pos h1] at h
    exact absurd h (by simp)
  rw [if_neg h1] at h
  by_cases h2 : path ≠ [] ∧ url ≠ []
  · rw [if_pos h2] at h
    exact absurd h (by simp)
  rw [if_neg h2] at h
  by_cases h3 : dep = []
  · rw [if_pos ⟨trivial, h3⟩] at h
    exact absurd h (by simp)
  rw [if_neg (fun hc => h3 hc.2), if_pos trivial, if_neg (by simp)] at h
  split at h
  · exact absurd h (by simp)
  · rename_i a st2 heqAfter
    cases a
    have hm2 : st2.manifestMtime = now := by
      by_cases hpu : path ≠ [] ∨ url ≠ []
      · rw [if_pos hpu] at heqAfter
        exact (pin_manual_ok_post oracle q now _ [] path url commit branch
          false _ st2 heqAfter).2
      · rw [if_neg hpu] at heqAfter
        cases heqAfter
        rfl
    cases upd with
    | false =>
      simp only [Bool.false_eq_true, if_false] at h
      cases h
      exact ⟨rfl, hm2⟩
    | true =>
      rw [if_pos rfl] at h
      split at h
      · rename_i x st4 heq2
        cases h
        have hf := run_alr_frame oracle q true true frc true [("with").data]
          { st2 with lockMtime := 0 }
        rw [heq2] at hf
        simp only [opState] at hf
        exact ⟨hf.2.2.1, hf.2.1.trans hm2⟩
      · exact absurd h (by simp)

/-- C6 (confirmed): after every manual manifest mutation — a successful
removal that found its entry, a successful manual pin, a successful manual
dependency addition, and a successful manual dependency deletion through
`alr_with` — the lockfile mtime is the epoch (0), the manifest mtime is
the write time `now`, and therefore (for any positive clock) the lockfile
is strictly older than the manifest. -/
theorem manual_mutation_resets_lockfile_mtime
    (oracle : Oracle) (q : Txt → Txt) (now : Nat) (hnow : 0 < now) :
    (∀ (array key : Txt) (fim upd : Bool) (st st' : TState) (ls : List Txt),
      deleteEntryLines array key (readlines st.manifest) = some ls →
      delete_array_entry_from_manifest oracle q now array key fim upd st
          = .ok () st' →
      st'.lockMtime = 0 ∧ st'.manifestMtime = now ∧
        st'.lockMtime < st'.manifestMtime) ∧
    (∀ (crate version path url commit branch : Txt) (upd : Bool) (st st' : TState),
      alr_pin oracle q now crate version path url commit branch true upd st
          = .ok () st' →
      st'.lockMtime = 0 ∧ st'.manifestMtime = now ∧
        st'.lockMtime < st'.manifestMtime) ∧
    (∀ (dep path url commit branch : Txt) (upd frc : Bool) (st st' : TState),
      alr_with oracle q now dep path url commit branch false true upd frc st
          = .ok () st' →
      st'.lockMtime = 0 ∧ st'.manifestMtime = now ∧
        st'.lockMtime < st'.manifestMtime) ∧
    (∀ (dep : Txt) (upd frc : Bool) (st st' : TState) (ls : List Txt),
      deleteEntryLines (("depends-on").data) (fix_dep true dep)
          (readlines st.manifest) = some ls →
      alr_with oracle q now dep [] [] [] [] true true upd frc st = .ok () st' →
      st'.lockMtime = 0 ∧ st'.manifestMtime = now ∧
        st'.lockMtime < st'.manifestMtime) := by
  refine ⟨?_, ?_, ?_, ?_⟩
  · intro array key fim upd st st' ls hls h
    obtain ⟨e1, e2, -⟩ :=
      delete_found_post oracle q now array key fim upd st st' ls hls h
    exact ⟨e1, e2, by omega⟩
  · intro crate version path url commit branch upd st st' h
    obtain ⟨e1, e2⟩ :=
      pin_manual_ok_post oracle q now crate version path url commit branch
        upd st st' h
    exact ⟨e1, e2, by omega⟩
  · intro dep path url commit branch upd frc st st' h
    obtain ⟨e1, e2⟩ :=
      with_manual_add_ok_post oracle q now dep path url commit branch
        upd frc st st' h
    exact ⟨e1, e2, by omega⟩
  · intro dep upd frc st st' ls hls h
    simp only [alr_with] at h
    rw [if_neg (by simp), if_neg (by simp)] at h
    by_cases h3 : dep = []
    · rw [if_pos ⟨trivial, h3⟩] at h
      exact absurd h (by simp)
    · rw [if_neg (fun hc => h3 hc.2), if_pos trivial, if_pos trivial] at h
      obtain ⟨e1, e2, -⟩ :=
        delete_found_post oracle q now (("depends-on").data) (fix_dep true dep)
          true upd st st' ls hls h
      exact ⟨e1, e2, by omega⟩

/-- C6 witness. -/
theorem manual_mutation_resets_lockfile_mtime_witness :
    (opState (alr_pin oracle0 qid 3 (("libfoo").data) [] (("../libfoo").data)
        [] [] [] true true stA)).lockMtime = 0 ∧
    (opState (alr_pin oracle0 qid 3 (("libfoo").data) [] (("../libfoo").data)
        [] [] [] true true stA)).manifestMtime = 3 ∧
    (opState (alr_pin oracle0 qid 3 (("libfoo").data) [] (("../libfoo").data)
        [] [] [] true true stA)).lockMtime
      < (opState (alr_pin oracle0 qid 3 (("libfoo").data) [] (("../libfoo").data)
        [] [] [] true true stA)).manifestMtime :=
  (manual_mutation_resets_lockfile_mtime oracle0 qid 3 (by omega)).2.1
    (("libfoo").data) [] (("../libfoo").data) [] [] [] true stA
    (opState (alr_pin oracle0 qid 3 (("libfoo").data) [] (("../libfoo").data)
      [] [] [] true true stA))
    (by decide)

/-! ### Validation-error effects -/

lemma delete_absent_ok (oracle : Oracle) (q : Txt → Txt) (now : Nat)
    (array key : Txt) (upd : Bool) (st : TState)
    (h : ¬ HasPair array key (readlines st.manifest)) :
    delete_array_entry_from_manifest oracle q now array key false upd st
      = .ok () { st with lockMtime := 0 } := by
  unfold delete_array_entry_from_manifest
  rw [deleteEntryLines_eq_none array key _ h]
  rfl

/-- C5 (corrected): the conflicting-option validations (commit together
with branch in both `alr_pin` and `alr_with`, path together with url in
`alr_with`) and the index-description validation do raise before any
mutation, with the state at the raise point equal to the input state (for
the registrar: no file of the offending index is written; indexes earlier
in the same call have already been staged).  But the missing-source
validation of a manual `alr_pin` (none of version/path/url) raises only
after the precautionary unpin: when no pin for the crate pre-exists, the
lockfile mtime has already been reset to the epoch at the raise point
(see the counterexample). -/
theorem validation_errors_effects
    (oracle : Oracle) (q : Txt → Txt) (now : Nat) (st : TState) :
    (∀ (crate version path url commit branch : Txt) (m upd : Bool),
      commit ≠ [] → branch ≠ [] →
      alr_pin oracle q now crate version path url commit branch m upd st
        = .err (.runtimeError (("Do not specify both commit and branch").data)) st) ∧
    (∀ (dep path url commit branch : Txt) (del m upd frc : Bool),
      commit ≠ [] → branch ≠ [] →
      alr_with oracle q now dep path url commit branch del m upd frc st
        = .err (.runtimeError (("Do not specify both commit and branch").data)) st) ∧
    (∀ (dep path url commit branch : Txt) (del m upd frc : Bool),
      ¬ (commit ≠ [] ∧ branch ≠ []) → path ≠ [] → url ≠ [] →
      alr_with oracle q now dep path url commit branch del m upd frc st
        = .err (.runtimeError (("Do not specify both path and url").data)) st) ∧
    (∀ (crate : Txt) (upd : Bool),
      ¬ HasPair (("pins").data) crate (readlines st.manifest) →
      alr_pin oracle q now crate [] [] [] [] [] true upd st
        = .err (.valueError (("Specify either version, path or url").data))
            { st with lockMtime := 0 }) ∧
    (∀ (root cfg wd name : Txt) (desc : Desc) (rest : List (Txt × Desc)) (m : Txt),
      parseDesc name desc = .error m →
      prepare_indexes root cfg wd ((name, desc) :: rest) st
        = .err (.valueError m) st) := by
  refine ⟨?_, ?_, ?_, ?_, ?_⟩
  · intro crate version path url commit branch m upd hc hb
    unfold alr_pin
    rw [if_pos ⟨hc, hb⟩]
  · intro dep path url commit branch del m upd frc hc hb
    unfold alr_with
    rw [if_pos ⟨hc, hb⟩]
  · intro dep path url commit branch del m upd frc hcb hp hu
    unfold alr_with
    rw [if_neg hcb, if_pos ⟨hp, hu⟩]
  · intro crate upd hnp
    unfold alr_pin
    rw [if_neg (by simp), if_pos rfl]
    rw [show alr_unpin oracle q now crate true false true st
          = delete_array_entry_from_manifest oracle q now (("pins").data)
              crate false true st from rfl,
        delete_absent_ok oracle q now (("pins").data) crate true st hnp]
    rfl
  · intro root cfg wd name desc rest m hm
    unfold prepare_indexes
    rw [hm]

/-- C5 witness. -/
theorem validation_errors_effects_witness :
    alr_pin oracle0 qid 2 (("bar").data) [] [] [] [] [] true false stLock7
      = .err (.valueError (("Specify either version, path or url").data))
          { stLock7 with lockMtime := 0 } :=
  (validation_errors_effects oracle0 qid 2 stLock7).2.2.2.1 (("bar").data)
    false (by decide)

/-! ### Pin-then-unpin round trip -/

lemma prefix_append_left (w : Txt) {u v : Txt} (h : u <+: v) :
    w ++ u <+: w ++ v := by
  obtain ⟨t, rfl⟩ := h
  exact ⟨t, by simp⟩

lemma delete_found_ok (oracle : Oracle) (q : Txt → Txt) (now : Nat)
    (array key : Txt) (fim upd : Bool) (st : TState) (ls : List Txt)
    (hls : deleteEntryLines array key (readlines st.manifest) = some ls)
    (hor : ∀ a, (oracle a).fst = 0) :
    ∃ st', delete_array_entry_from_manifest oracle q now array key fim upd st
        = .ok () st' ∧ st'.manifest = joinLines ls := by
  unfold delete_array_entry_from_manifest
  rw [hls]
  dsimp only []
  cases upd with
  | false => exact ⟨_, rfl, rfl⟩
  | true =>
    rw [if_pos (rfl : (true : Bool) = true),
        run_alr_ok_zero oracle q true true false true [("pin").data] _ (hor _)]
    dsimp only []
    exact ⟨_, rfl, rfl⟩

/-- C1 (corrected): pinning a crate manually to a path and then manually
unpinning it restores the manifest to its pre-pin content followed by one
extra newline — not byte-for-byte: the blank separator line written before
`[[pins]]` is not removed by the unpin, which pops only the header and
entry lines (see the counterexample for the strict failure of
byte-identity).  Both operations succeed, for any update flags, on any
manifest that ends with a newline (or is empty) and holds no pre-existing
pin for the crate. -/
theorem pin_unpin_restores_plus_newline
    (oracle : Oracle) (q : Txt → Txt) (now1 now2 : Nat) (crate p : Txt)
    (fim u1 u2 : Bool) (st : TState)
    (hend : st.manifest = [] ∨ st.manifest.getLast? = some '\n')
    (hnp : ¬ HasPair (("pins").data) crate (readlines st.manifest))
    (hcr : '\n' ∉ crate) (hp : '\n' ∉ p) (hpne : p ≠ [])
    (hor : ∀ a, (oracle a).fst = 0) :
    ∃ st1 st2,
      alr_pin oracle q now1 crate [] p [] [] [] true u1 st = .ok () st1 ∧
      alr_unpin oracle q now2 crate true fim u2 st1 = .ok () st2 ∧
      st2.manifest = st.manifest ++ ['\n'] := by
  have hpl : pin_line crate [] p [] [] []
      = some (crate ++ (" = \x7b path = \x27").data ++ p ++ ("\x27 \x7d").data) := by
    unfold pin_line
    rw [if_neg (by simp), if_pos hpne]
  have hpin : ∃ st1, alr_pin oracle q now1 crate [] p [] [] [] true u1 st
      = .ok () st1 ∧
      st1.manifest = st.manifest ++ ("\n[[pins]]\n").data
        ++ (crate ++ (" = \x7b path = \x27").data ++ p ++ ("\x27 \x7d").data)
        ++ ['\n'] := by
    unfold alr_pin
    rw [if_neg (by simp), if_pos rfl]
    rw [show alr_unpin oracle q now1 crate true false true st
          = delete_array_entry_from_manifest oracle q now1 (("pins").data)
              crate false true st from rfl,
        delete_absent_ok oracle q now1 (("pins").data) crate true st hnp]
    dsimp only []
    rw [hpl]
    dsimp only []
    cases u1 with
    | false => exact ⟨_, rfl, rfl⟩
    | true =>
      rw [if_pos (rfl : (true : Bool) = true),
          run_alr_ok_zero oracle q true true false true [("pin").data] _ (hor _)]
      dsimp only []
      exact ⟨_, rfl, rfl⟩
  obtain ⟨st1, hpineq, hman1⟩ := hpin
  have hlineNoNl : '\n' ∉ crate ++ (" = \x7b path = \x27").data ++ p
      ++ ("\x27 \x7d").data := by
    simp only [List.mem_append]
    rintro (((hm | hm) | hm) | hm)
    · exact hcr hm
    · revert hm; decide
    · exact hp hm
    · revert hm; decide
  have hshape : st1.manifest
      = st.manifest ++ ('\n' :: ((("[[pins]]").data)
          ++ ('\n' :: ((crate ++ (" = \x7b path = \x27").data ++ p
            ++ ("\x27 \x7d").data) ++ ('\n' :: []))))) := by
    rw [hman1]
    rw [show (("\n[[pins]]\n").data : Txt)
          = '\n' :: ((("[[pins]]").data) ++ ['\n']) from by decide]
    simp [List.append_assoc]
  have hlines : readlines st1.manifest
      = readlines st.manifest ++ [['\n'], headerOf (("pins").data),
          (crate ++ (" = \x7b path = \x27").data ++ p ++ ("\x27 \x7d").data)
            ++ ['\n']] := by
    rw [hshape, readlines_append _ _ hend]
    congr 1
    unfold readlines
    rw [readlinesAux_cons, if_pos rfl,
        readlinesAux_newline_split (("[[pins]]").data) (by decide),
        readlinesAux_newline_split _ hlineNoNl]
    simp [readlinesAux, headerOf]
  have hpre : (crate ++ (" =").data)
      <+: (crate ++ (" = \x7b path = \x27").data ++ p ++ ("\x27 \x7d").data)
            ++ ['\n'] := by
    have h0 : ((" =").data : Txt) <+: (" = \x7b path = \x27").data := by decide
    exact (((prefix_append_left crate h0).trans
      (List.prefix_append _ p)).trans (List.prefix_append _ _)).trans
      (List.prefix_append _ _)
  have hdel1 : deleteEntryLines (("pins").data) crate (readlines st1.manifest)
      = some (readlines st.manifest ++ [['\n']]) := by
    rw [hlines]
    exact deleteEntryLines_found (("pins").data) crate _ hpre
      (readlines st.manifest) hnp
  obtain ⟨st2, hunpineq, hman2⟩ :=
    delete_found_ok oracle q now2 (("pins").data) crate fim u2 st1 _ hdel1 hor
  refine ⟨st1, st2, hpineq, ?_, ?_⟩
  · rw [show alr_unpin oracle q now2 crate true fim u2 st1
        = delete_array_entry_from_manifest oracle q now2 (("pins").data)
            crate fim u2 st1 from rfl]
    exact hunpineq
  · rw [hman2, joinLines_append, joinLines_readlines]
    simp [joinLines]

/-- C1 witness. -/
theorem pin_unpin_restores_plus_newline_witness :
    ∃ st1 st2,
      alr_pin oracle0 qid 3 (("libfoo").data) [] (("../libfoo").data) [] [] []
        true true stA = .ok () st1 ∧
      alr_unpin oracle0 qid 4 (("libfoo").data) true true true st1 = .ok () st2 ∧
      st2.manifest = stA.manifest ++ ['\n'] :=
  pin_unpin_restores_plus_newline oracle0 qid 3 4 (("libfoo").data)
    (("../libfoo").data) true true true stA (Or.inr (by decide)) (by decide)
    (by decide) (by decide) (by decide) (fun _ => rfl)
